import Mathlib

/-!
Shallow embedding of the star-registry blockchain engine
(`src/blockchain.js`, class `Blockchain`).

The repository ships only `blockchain.js`; the `Block` class it imports
(`./block.js`) is not in the sources, so the entry-level operations
(constructor, `isGenesisBlock`, `validate`, `getBData`) and the payload
codec are modelled from the specification (§4.1, §6).  The SHA256 digest
and the bitcoinjs-message verifier are external collaborators and are
modelled at their interface boundary: the digest as a concrete
deterministic function of the digested fields, the verifier as a
function parameter that may return a boolean or throw.
-/

namespace StarRegistry

/-- Modelled from the spec: the entry payload is a tagged union
`{Genesis(sentinel), StarClaim{owner, star}}` (§9); the genesis sentinel is
`{ data: 'Genesis Block' }` and a user submission is `{owner, star}`. -/
inductive Payload where
  | genesis
  | star (owner : String) (starData : String)
deriving DecidableEq

/-- Modelled from the spec: `encode(payload) -> storable-bytes` (§6);
storable bytes are represented as a list of strings. -/
def encodePayload : Payload → List String
  | Payload.genesis => ["Genesis Block"]
  | Payload.star o s => ["owner", o, "star", s]

/-- Modelled from the spec: `decode(storable-bytes) -> payload`, failing
(`none`) on malformed input (§6). -/
def decodePayload (body : List String) : Option Payload :=
  match body with
  | [d] => if d = "Genesis Block" then some Payload.genesis else none
  | [k1, o, k2, s] =>
      if k1 = "owner" ∧ k2 = "star" then some (Payload.star o s) else none
  | _ => none

/-- The `owner` field of a decoded payload; the genesis sentinel has no
owner (reading `.owner` on it yields `undefined`, i.e. `none`). -/
def payloadOwner : Payload → Option String
  | Payload.genesis => none
  | Payload.star o _ => some o

/-- A ledger entry.  Mirrors the `Block` object: `time`, `height`,
`previousBlockHash` and `hash` start unset (`none`) and are stamped by
`_addBlock`; `body` holds the encoded payload. -/
structure Block where
  time : Option Nat
  height : Option Nat
  body : List String
  previousBlockHash : Option String
  hash : Option String
deriving DecidableEq

/-- A default block value, used only for out-of-range `List.getD` reads in
statements about chain indices. -/
def dummyBlock : Block :=
  { time := none, height := none, body := [], previousBlockHash := none, hash := none }

/-- Modelled from the spec: `Construct(payload)` returns a new unsealed
entry holding the payload with `height`/`timestamp`/`previous_digest`/
`digest` unset (§4.1). -/
def newBlock (p : Payload) : Block :=
  { time := none, height := none, body := encodePayload p,
    previousBlockHash := none, hash := none }

/-- Serialization of an optional numeric field for `digestOf`. -/
def fieldNat : Option Nat → String
  | none => "null"
  | some k => Nat.repr k

/-- Serialization of an optional string field for `digestOf`. -/
def fieldStr : Option String → String
  | none => "null"
  | some s => s

/-- Serialization of the encoded body for `digestOf`. -/
def fieldBody (body : List String) : String :=
  body.foldl (fun acc s => acc ++ "," ++ s) ""

/-- The external content digest (`SHA256(JSON.stringify(block))` with the
`hash` field still unset, per §3: digest-of-self-minus-digest).  Modelled as
a concrete deterministic function of the digested fields. -/
def digestOf (t : Option Nat) (h : Option Nat) (p : Option String)
    (body : List String) : String :=
  "#" ++ fieldNat t ++ "|" ++ fieldNat h ++ "|" ++ fieldStr p ++ "|" ++ fieldBody body

/-- Modelled from the spec: `IsGenesis()` is true iff the entry's payload
structurally equals the fixed genesis sentinel (§4.1). -/
def isGenesisBlock (b : Block) : Bool :=
  decide (decodePayload b.body = some Payload.genesis)

/-- Modelled from the spec: entry-level `Validate()` recomputes the digest
from the stored fields (digest field excluded) and compares it with the
stored digest (§4.1). -/
def blockValidate (b : Block) : Bool :=
  decide (b.hash = some (digestOf b.time b.height b.previousBlockHash b.body))

/-- Modelled from the spec: `DecodePayload()` returns the decoded payload
or fails with a `DecodeError` on malformed stored bytes (§4.1); the
rejection value is irrelevant, so `Except Unit`. -/
def getBData (b : Block) : Except Unit Payload :=
  match decodePayload b.body with
  | some p => Except.ok p
  | none => Except.error ()

/-- The engine state: `this.chain` and `this.height` of the `Blockchain`
class (`height` is an integer because it starts at `-1`). -/
structure ChainState where
  chain : List Block
  height : Int
deriving DecidableEq

/-- The state set up by the constructor before `initializeChain` runs:
`this.chain = []; this.height = -1`. -/
def emptyState : ChainState := { chain := [], height := -1 }

/-- `validateChain`'s loop from position `i` of the remaining chain: for
each block, if `block.validate()` fails push the index; otherwise, if a
next block exists and its `previousBlockHash` differs from this block's
`hash`, push the index as well. -/
def validateChainFrom : Nat → List Block → List Nat
  | _, [] => []
  | i, b :: rest =>
    (if blockValidate b = false then [i]
     else
       match rest with
       | [] => []
       | b2 :: _ => if b.hash ≠ b2.previousBlockHash then [i] else []) ++
    validateChainFrom (i + 1) rest

/-- `validateChain()`: the ordered list of indices at which a problem was
found (empty list = fully valid). -/
def validateChain (c : List Block) : List Nat :=
  validateChainFrom 0 c

/-- Errors `_addBlock` can reject with: the explicit
`Error('Invalid blockchain')`, and the implicit `TypeError` raised when a
non-genesis block is added to an empty chain
(`self.chain[self.chain.length - 1]` is `undefined`). -/
inductive AddErr where
  | invalidBlockchain
  | typeError
deriving DecidableEq

deriving instance DecidableEq for Except

/-- Result of `_addBlock`: the settled promise value, the engine state
after the call, and the caller's block object after the call (the code
mutates the block in place before validating, so it is reported separately
from the chain state). -/
structure AddResult where
  res : Except AddErr Block
  st : ChainState
  blockObj : Block
deriving DecidableEq

/-- Shared tail of `_addBlock` after `time`/`height`/`previousBlockHash`
are stamped: compute and set `block.hash`, run `validateChain`, reject if
it reported any index, otherwise push the block and update the height. -/
def sealAndValidate (st : ChainState) (b2 : Block) : AddResult :=
  let b3 : Block :=
    { b2 with hash := some (digestOf b2.time b2.height b2.previousBlockHash b2.body) }
  if 0 < (validateChain st.chain).length then
    { res := Except.error AddErr.invalidBlockchain, st := st, blockObj := b3 }
  else
    { res := Except.ok b3,
      st := { chain := st.chain ++ [b3], height := (st.chain.length : Int) },
      blockObj := b3 }

/-- `_addBlock(block)`: stamp `time` (current wall-clock seconds) and
`height`; for a non-genesis block set `previousBlockHash` from the last
block of the chain; then seal, validate the pre-existing chain, and
append. -/
def _addBlock (st : ChainState) (b : Block) (now : Nat) : AddResult :=
  let b1 : Block := { b with time := some now, height := some st.chain.length }
  if isGenesisBlock b1 then
    sealAndValidate st b1
  else
    match st.chain.getLast? with
    | none => { res := Except.error AddErr.typeError, st := st, blockObj := b1 }
    | some lb => sealAndValidate st { b1 with previousBlockHash := lb.hash }

/-- `initializeChain()`: if the height is `-1`, build the genesis block
with payload `{ data: 'Genesis Block' }` and `_addBlock` it. -/
def initializeChain (st : ChainState) (now : Nat) : ChainState :=
  if st.height = -1 then (_addBlock st (newBlock Payload.genesis) now).st else st

/-- The constructor: empty chain, height `-1`, then `initializeChain()`. -/
def mkBlockchain (now : Nat) : ChainState :=
  initializeChain emptyState now

/-- `MesgTimeLimitSec = 5 * 60`: the challenge time window in seconds. -/
def MesgTimeLimitSec : Int := 5 * 60

/-- JavaScript `parseInt` on a decimal numeral: optional sign, then the
longest prefix of digits; `NaN` (here `none`) when no digit is found. -/
def digitsToNat (cs : List Char) : Nat :=
  cs.foldl (fun acc c => acc * 10 + (c.toNat - 48)) 0

/-- See `digitsToNat`; `parseIntJS s` is `none` exactly when JavaScript
`parseInt(s)` is `NaN`. -/
def parseIntJS (s : String) : Option Int :=
  match s.data with
  | '-' :: rest =>
      let ds := rest.takeWhile Char.isDigit
      if ds = [] then none else some (-(digitsToNat ds : Int))
  | '+' :: rest =>
      let ds := rest.takeWhile Char.isDigit
      if ds = [] then none else some ((digitsToNat ds : Int))
  | cs =>
      let ds := cs.takeWhile Char.isDigit
      if ds = [] then none else some ((digitsToNat ds : Int))

/-- JavaScript `String.prototype.split` with a single-character separator:
split into the (possibly empty) chunks between separator occurrences. -/
def splitChunks (sep : Char) : List Char → List Char → List String
  | [], acc => [String.mk acc.reverse]
  | c :: rest, acc =>
      if c = sep then String.mk acc.reverse :: splitChunks sep rest []
      else splitChunks sep rest (c :: acc)

/-- See `splitChunks`: `splitJS sep s` models `s.split(sep)`. -/
def splitJS (sep : Char) (s : String) : List String :=
  splitChunks sep s.data []

/-- `parseInt(message.split(':')[1])`: the unix-seconds component of a
challenge message; `none` models `NaN` (also when `split` yields fewer
than two parts, since `parseInt(undefined)` is `NaN`). -/
def msgTime (message : String) : Option Int :=
  ((splitJS ':' message)[1]?).bind parseIntJS

/-- The elapsed-time guard of `submitStar`:
`currentTime - time > MesgTimeLimitSec`.  When the message time is `NaN`
the subtraction is `NaN` and the comparison is false, so the guard does
not fire. -/
def challengeExpired (message : String) (currentTime : Nat) : Bool :=
  match msgTime message with
  | some t => decide ((currentTime : Int) - t > MesgTimeLimitSec)
  | none => false

/-- The distinct rejections of `submitStar`: the time-limit `Error`, the
`Error('Message verification failed')`, an error thrown by
`bitcoinMessage.verify` itself, and an error propagated from
`_addBlock`. -/
inductive SubmitErr where
  | timeLimitExceeded
  | verificationFailed
  | verifierThrew
  | addBlockErr (e : AddErr)
deriving DecidableEq

/-- The external signature verifier
(`bitcoinMessage.verify(message, address, signature)`): returns a boolean
or throws (`Except.error`). -/
abbrev Verifier := String → String → String → Except Unit Bool

/-- Steps 4-6 of `submitStar`, reached once the time guard has passed:
verify the message, build the `{owner, star}` block, `_addBlock` it and
resolve with the block. -/
def verifyAndAdd (verify : Verifier) (st : ChainState)
    (address message signature starData : String) (now : Nat) :
    Except SubmitErr Block × ChainState :=
  match verify message address signature with
  | Except.error _ => (Except.error SubmitErr.verifierThrew, st)
  | Except.ok false => (Except.error SubmitErr.verificationFailed, st)
  | Except.ok true =>
      let r := _addBlock st (newBlock (Payload.star address starData)) now
      match r.res with
      | Except.ok b => (Except.ok b, r.st)
      | Except.error e => (Except.error (SubmitErr.addBlockErr e), r.st)

/-- `submitStar(address, message, signature, star)`: reject when the
elapsed time exceeds the limit, otherwise verify and append. -/
def submitStar (verify : Verifier) (st : ChainState)
    (address message signature starData : String) (now : Nat) :
    Except SubmitErr Block × ChainState :=
  if challengeExpired message now then
    (Except.error SubmitErr.timeLimitExceeded, st)
  else
    verifyAndAdd verify st address message signature starData now

/-- The test `block !== null` of `getBlockByHash`: `Array.find` yields the
found `Block` or `undefined`, and neither is strictly equal to `null`, so
the test is true on both branches. -/
def jsStrictNeNull (block : Option Block) : Bool :=
  match block with
  | some _ => true
  | none => true

/-- `getBlockByHash(hash)`: `find` the first block whose stored hash
equals the argument, then resolve or reject according to `block !== null`.
The resolved value is an `Option Block` because the code can resolve with
`undefined`. -/
def getBlockByHash (st : ChainState) (h : String) : Except String (Option Block) :=
  let block := st.chain.find? (fun b => b.hash == some h)
  if jsStrictNeNull block then Except.ok block
  else Except.error "Block with the hash not found"

/-- How an asynchronous call can end: resolve, reject, or never settle
(the code loses track of an unhandled rejection). -/
inductive Outcome (α : Type) where
  | resolved (a : α)
  | rejected
  | pending
deriving DecidableEq

/-- `Promise.all`: resolves with the list of results when every promise
resolves, rejects as soon as any of them rejects. -/
def promiseAll {α : Type} : List (Except Unit α) → Except Unit (List α)
  | [] => Except.ok []
  | Except.ok a :: rest => (promiseAll rest).map (fun l => a :: l)
  | Except.error e :: _ => Except.error e

/-- The per-block promise of `getStarsByWalletAddress`:
`block.getBData().then(data => data.owner === address ? data : null)`.
A `getBData` rejection passes through untouched (no per-entry catch). -/
def starFilter (address : String) (b : Block) : Except Unit (Option Payload) :=
  (getBData b).map (fun data =>
    if payloadOwner data == some address then some data else none)

/-- The scan of `getStarsByWalletAddress` over the chain array: build the
per-block promises, `Promise.all` them, and on success resolve with the
non-null results.  When `Promise.all` rejects, the attached `.then` never
runs and no rejection handler exists, so the outer promise never settles
(`Outcome.pending`). -/
def starsScan (chain : List Block) (address : String) : Outcome (List Payload) :=
  match promiseAll (chain.map (starFilter address)) with
  | Except.ok result => Outcome.resolved (result.filterMap id)
  | Except.error _ => Outcome.pending

/-- `getStarsByWalletAddress(address)` on the engine state. -/
def getStarsByWalletAddress (st : ChainState) (address : String) :
    Outcome (List Payload) :=
  starsScan st.chain address

/-- One `submitStar`-style append: `_addBlock` of a freshly constructed
`{owner, star}` block at a given time, keeping the resulting state. -/
def appendStar (st : ChainState) (x : String × String × Nat) : ChainState :=
  (_addBlock st (newBlock (Payload.star x.1 x.2.1)) x.2.2).st

/-- A chain built by initialization followed by a sequence of
`submitStar`-style appends (owner, star data, wall-clock time each). -/
def buildChain (t0 : Nat) (appends : List (String × String × Nat)) : ChainState :=
  appends.foldl appendStar (mkBlockchain t0)

/-- A verifier that accepts every signature. -/
def vTrue : Verifier := fun _ _ _ => Except.ok true

/-- A verifier that rejects every signature. -/
def vFalse : Verifier := fun _ _ _ => Except.ok false

/-- A tampered block: its stored `hash` does not match the recomputed
digest of its fields. -/
def badBlock : Block :=
  { time := some 5, height := some 0, body := ["Genesis Block"],
    previousBlockHash := none, hash := some "tampered" }

/-- An engine state whose pre-existing chain fails validation. -/
def stCorrupt : ChainState := { chain := [badBlock], height := 0 }

/-- A chain that fails `validateChain` is in particular non-empty. -/
lemma chain_ne_nil_of_invalid {c : List Block} (h : validateChain c ≠ []) :
    c ≠ [] := by
  intro hc
  subst hc
  exact h rfl

/-- On a state whose chain fails validation, the sealing tail of
`_addBlock` rejects with `Error('Invalid blockchain')`, leaves the state
unchanged, and reports the sealed block object. -/
lemma sealAndValidate_corrupt (st : ChainState) (b2 : Block)
    (h : validateChain st.chain ≠ []) :
    sealAndValidate st b2 =
      { res := Except.error AddErr.invalidBlockchain, st := st,
        blockObj :=
          { b2 with hash := some (digestOf b2.time b2.height b2.previousBlockHash b2.body) } } := by
  have hlen : 0 < (validateChain st.chain).length := List.length_pos.mpr h
  simp [sealAndValidate, hlen]

/-- `verifyAndAdd` (the code after the elapsed-time guard) can never
produce the time-limit rejection. -/
lemma verifyAndAdd_ne_timeLimit (verify : Verifier) (st : ChainState)
    (address message signature starData : String) (now : Nat) :
    (verifyAndAdd verify st address message signature starData now).1 ≠
      Except.error SubmitErr.timeLimitExceeded := by
  unfold verifyAndAdd
  cases hv : verify message address signature with
  | error e => simp
  | ok bb =>
      cases bb with
      | false => simp
      | true =>
          cases hr : (_addBlock st (newBlock (Payload.star address starData)) now).res with
          | ok b => simp [hr]
          | error e => simp [hr]

/-- C1 counterexample: for the call `submitStar("a", "a:xyz:starRegistry",
sig, star)` whose unix-seconds component cannot be parsed, with a verifier
that returns true, the call does not fail at all: it proceeds past
signature verification, appends a block and resolves with it — there is no
malformed-challenge rejection in the code. -/
theorem submitStar_malformed_appends_counterexample :
    msgTime "a:xyz:starRegistry" = none ∧
    (submitStar vTrue (mkBlockchain 1000) "a" "a:xyz:starRegistry" "sig" "star" 1001).1 =
      Except.ok ((_addBlock (mkBlockchain 1000) (newBlock (Payload.star "a" "star")) 1001).blockObj) ∧
    (submitStar vTrue (mkBlockchain 1000) "a" "a:xyz:starRegistry" "sig" "star" 1001).2.chain.length = 2 := by
  decide

/-- C1 (amended): when the unix-seconds component of the message cannot be
parsed, `parseInt` yields `NaN`, the elapsed-time comparison is false, and
`submitStar` proceeds directly to signature verification (`verifyAndAdd`);
no malformed-challenge rejection exists. -/
theorem submitStar_malformed_proceeds (verify : Verifier) (st : ChainState)
    (address message signature starData : String) (now : Nat)
    (h : msgTime message = none) :
    submitStar verify st address message signature starData now =
      verifyAndAdd verify st address message signature starData now := by
  simp [submitStar, challengeExpired, h]

/-- C1 witness: the amended theorem applied to a concrete malformed
message. -/
theorem submitStar_malformed_proceeds_witness :
    msgTime "a:xyz:starRegistry" = none ∧
    submitStar vFalse (mkBlockchain 1000) "a" "a:xyz:starRegistry" "sig" "star" 1001 =
      verifyAndAdd vFalse (mkBlockchain 1000) "a" "a:xyz:starRegistry" "sig" "star" 1001 :=
  ⟨by decide,
   submitStar_malformed_proceeds vFalse (mkBlockchain 1000) "a" "a:xyz:starRegistry"
     "sig" "star" 1001 (by decide)⟩

/-- C2: evaluating `getBlockByHash` on an initialized chain at a digest
present in no entry: `find` returns `undefined`, `undefined !== null`
is true, and the call resolves with `undefined` instead of rejecting with
the (dead) `'Block with the hash not found'` branch. -/
theorem getBlockByHash_missing_resolves_undefined :
    getBlockByHash (mkBlockchain 1000) "nope" = Except.ok none := by
  decide

/-- C4: for a well-formed message (the unix-seconds component parses to
`t`), `submitStar` fails with the time-limit rejection if and only if
`now - t > 300`; in particular no lower bound is enforced on the elapsed
time. -/
theorem submitStar_expiry_iff (verify : Verifier) (st : ChainState)
    (address message signature starData : String) (now : Nat) (t : Int)
    (h : msgTime message = some t) :
    ((submitStar verify st address message signature starData now).1 =
        Except.error SubmitErr.timeLimitExceeded) ↔ (now : Int) - t > 300 := by
  have hce : challengeExpired message now = decide ((now : Int) - t > 300) := by
    unfold challengeExpired
    rw [h]
    norm_num [MesgTimeLimitSec]
  by_cases hc : (now : Int) - t > 300
  · simp [submitStar, hce, hc]
  · have hd : challengeExpired message now = false := by
      rw [hce]
      exact decide_eq_false hc
    simp only [submitStar, hd, Bool.false_eq_true, if_false, hc, iff_false]
    exact verifyAndAdd_ne_timeLimit verify st address message signature starData now

/-- C4 witness: the challenge issued at T=1000 is rejected at T=1400
(elapsed 400 > 300). -/
theorem submitStar_expiry_iff_witness :
    msgTime "addr1:1000:starRegistry" = some 1000 ∧
    (((submitStar vTrue (mkBlockchain 500) "addr1" "addr1:1000:starRegistry" "sig" "star" 1400).1 =
        Except.error SubmitErr.timeLimitExceeded) ↔ ((1400 : Nat) : Int) - 1000 > 300) :=
  ⟨by decide,
   submitStar_expiry_iff vTrue (mkBlockchain 500) "addr1" "addr1:1000:starRegistry"
     "sig" "star" 1400 1000 (by decide)⟩

/-- C5: whenever the pre-existing chain fails validation, `_addBlock`
rejects with `Error('Invalid blockchain')` and the engine state (chain and
height) is unchanged. -/
theorem addBlock_corrupt_rejects (st : ChainState) (b : Block) (now : Nat)
    (h : validateChain st.chain ≠ []) :
    (_addBlock st b now).res = Except.error AddErr.invalidBlockchain ∧
    (_addBlock st b now).st = st := by
  have hne : st.chain ≠ [] := chain_ne_nil_of_invalid h
  unfold _addBlock
  by_cases hg : isGenesisBlock { b with time := some now, height := some st.chain.length }
  · simp [hg, sealAndValidate_corrupt st _ h]
  · cases hl : st.chain.getLast? with
    | none => exact absurd (List.getLast?_eq_none_iff.mp hl) hne
    | some lb => simp [hg, hl, sealAndValidate_corrupt st _ h]

/-- C5 witness: the corrupted single-block state refuses an append. -/
theorem addBlock_corrupt_rejects_witness :
    validateChain stCorrupt.chain ≠ [] ∧
    ((_addBlock stCorrupt (newBlock (Payload.star "o" "s")) 10).res =
        Except.error AddErr.invalidBlockchain ∧
     (_addBlock stCorrupt (newBlock (Payload.star "o" "s")) 10).st = stCorrupt) :=
  ⟨by decide, addBlock_corrupt_rejects stCorrupt (newBlock (Payload.star "o" "s")) 10 (by decide)⟩

/-- C8: when the elapsed-time guard passes and the external verifier
returns false or throws, `submitStar` rejects with the corresponding typed
error (`Message verification failed`, resp. the verifier's own error) and
the engine state — chain and height — is exactly what it was before. -/
theorem submitStar_sigfail_leaves_chain (verify : Verifier) (st : ChainState)
    (address message signature starData : String) (now : Nat)
    (h1 : challengeExpired message now = false)
    (h2 : verify message address signature = Except.ok false ∨
          verify message address signature = Except.error ()) :
    ((submitStar verify st address message signature starData now).1 =
        Except.error SubmitErr.verificationFailed ∨
     (submitStar verify st address message signature starData now).1 =
        Except.error SubmitErr.verifierThrew) ∧
    (submitStar verify st address message signature starData now).2 = st := by
  rcases h2 with h2 | h2 <;> simp [submitStar, h1, verifyAndAdd, h2]

/-- C8 witness: a rejected signature at a fresh chain leaves the state
unchanged. -/
theorem submitStar_sigfail_leaves_chain_witness :
    challengeExpired "addr1:1000:starRegistry" 1200 = false ∧
    (((submitStar vFalse (mkBlockchain 500) "addr1" "addr1:1000:starRegistry" "sig" "star" 1200).1 =
        Except.error SubmitErr.verificationFailed ∨
      (submitStar vFalse (mkBlockchain 500) "addr1" "addr1:1000:starRegistry" "sig" "star" 1200).1 =
        Except.error SubmitErr.verifierThrew) ∧
     (submitStar vFalse (mkBlockchain 500) "addr1" "addr1:1000:starRegistry" "sig" "star" 1200).2 =
        mkBlockchain 500) :=
  ⟨by decide,
   submitStar_sigfail_leaves_chain vFalse (mkBlockchain 500) "addr1"
     "addr1:1000:starRegistry" "sig" "star" 1200 (by decide) (Or.inl rfl)⟩

/-- C10: when `_addBlock` rejects because the pre-existing chain fails
validation, the caller's (non-genesis, fresh) block object has nonetheless
already been mutated: its `time`, `height`, `previousBlockHash` and `hash`
were stamped before the validation ran, so the block is not in its
pre-call state even though the chain is. -/
theorem addBlock_corrupt_mutates_block (st : ChainState) (b : Block) (now : Nat)
    (h1 : validateChain st.chain ≠ [])
    (h2 : decodePayload b.body ≠ some Payload.genesis)
    (h3 : b.hash = none) :
    (_addBlock st b now).res = Except.error AddErr.invalidBlockchain ∧
    (_addBlock st b now).st = st ∧
    (_addBlock st b now).blockObj.time = some now ∧
    (_addBlock st b now).blockObj.height = some st.chain.length ∧
    (∃ lb, st.chain.getLast? = some lb ∧
      (_addBlock st b now).blockObj.previousBlockHash = lb.hash) ∧
    (∃ d, (_addBlock st b now).blockObj.hash = some d) ∧
    (_addBlock st b now).blockObj ≠ b := by
  have hne : st.chain ≠ [] := chain_ne_nil_of_invalid h1
  have hg : isGenesisBlock { b with time := some now, height := some st.chain.length } = false := by
    simp [isGenesisBlock, h2]
  cases hl : st.chain.getLast? with
  | none => exact absurd (List.getLast?_eq_none_iff.mp hl) hne
  | some lb =>
      unfold _addBlock
      simp only [hg, Bool.false_eq_true, if_false, hl]
      rw [sealAndValidate_corrupt st _ h1]
      refine ⟨rfl, rfl, rfl, rfl, ⟨lb, rfl, rfl⟩, ⟨_, rfl⟩, ?_⟩
      intro heq
      have := congrArg Block.hash heq
      simp [h3] at this

/-- C10 witness: the corrupted state together with a fresh star block. -/
theorem addBlock_corrupt_mutates_block_witness :
    validateChain stCorrupt.chain ≠ [] ∧
    decodePayload (newBlock (Payload.star "o" "s")).body ≠ some Payload.genesis ∧
    (newBlock (Payload.star "o" "s")).hash = none ∧
    ((_addBlock stCorrupt (newBlock (Payload.star "o" "s")) 10).res =
        Except.error AddErr.invalidBlockchain ∧
     (_addBlock stCorrupt (newBlock (Payload.star "o" "s")) 10).st = stCorrupt ∧
     (_addBlock stCorrupt (newBlock (Payload.star "o" "s")) 10).blockObj.time = some 10 ∧
     (_addBlock stCorrupt (newBlock (Payload.star "o" "s")) 10).blockObj.height =
        some stCorrupt.chain.length ∧
     (∃ lb, stCorrupt.chain.getLast? = some lb ∧
       (_addBlock stCorrupt (newBlock (Payload.star "o" "s")) 10).blockObj.previousBlockHash =
          lb.hash) ∧
     (∃ d, (_addBlock stCorrupt (newBlock (Payload.star "o" "s")) 10).blockObj.hash = some d) ∧
     (_addBlock stCorrupt (newBlock (Payload.star "o" "s")) 10).blockObj ≠
        newBlock (Payload.star "o" "s")) :=
  ⟨by decide, by decide, by decide,
   addBlock_corrupt_mutates_block stCorrupt (newBlock (Payload.star "o" "s")) 10
     (by decide) (by decide) (by decide)⟩

/-- The per-block promise settles with `ok (some p)` when the payload
decodes to `p` owned by the queried address, `ok none` when it decodes to
a payload with a different owner, and `error` when decoding fails. -/
lemma starFilter_eq (address : String) (b : Block) :
    starFilter address b =
      match decodePayload b.body with
      | some p =>
          Except.ok (if payloadOwner p == some address then some p else none)
      | none => Except.error () := by
  cases hd : decodePayload b.body <;> simp [starFilter, getBData, hd, Except.map]

/-- When every entry of the chain decodes, `Promise.all` over the
per-block promises resolves with the per-block match results in order. -/
lemma promiseAll_star_ok (address : String) : ∀ (chain : List Block),
    chain.all (fun b => (decodePayload b.body).isSome) = true →
    promiseAll (chain.map (starFilter address)) =
      Except.ok (chain.map (fun b =>
        (decodePayload b.body).bind (fun p =>
          if payloadOwner p == some address then some p else none))) := by
  intro chain
  induction chain with
  | nil => intro _; rfl
  | cons b rest ih =>
      intro hall
      rw [List.all_cons, Bool.and_eq_true] at hall
      obtain ⟨p, hd⟩ := Option.isSome_iff_exists.mp hall.1
      rw [List.map_cons, starFilter_eq, hd, promiseAll, ih hall.2]
      simp [Except.map, List.map_cons, hd]

/-- As soon as some entry of the chain fails to decode, `Promise.all` over
the per-block promises rejects. -/
lemma promiseAll_star_error (address : String) : ∀ (chain : List Block),
    chain.all (fun b => (decodePayload b.body).isSome) = false →
    promiseAll (chain.map (starFilter address)) = Except.error () := by
  intro chain
  induction chain with
  | nil => intro h; simp at h
  | cons b rest ih =>
      intro hall
      rw [List.all_cons, Bool.and_eq_false_iff] at hall
      cases hd : decodePayload b.body with
      | none => rw [List.map_cons, starFilter_eq, hd, promiseAll]
      | some p =>
          have htail : rest.all (fun b => (decodePayload b.body).isSome) = false := by
            rcases hall with h | h
            · rw [hd] at h; simp at h
            · exact h
          rw [List.map_cons, starFilter_eq, hd, promiseAll, ih htail]
          rfl

/-- The scan of `getStarsByWalletAddress` resolves with exactly the
matching decoded payloads in chain order when every entry decodes, and
never settles as soon as any entry fails to decode. -/
lemma starsScan_eq (address : String) (chain : List Block) :
    starsScan chain address =
      if chain.all (fun b => (decodePayload b.body).isSome) then
        Outcome.resolved (chain.filterMap (fun b =>
          (decodePayload b.body).bind (fun p =>
            if payloadOwner p == some address then some p else none)))
      else Outcome.pending := by
  cases hall : chain.all (fun b => (decodePayload b.body).isSome) with
  | true =>
      rw [starsScan, promiseAll_star_ok address chain hall]
      simp [List.filterMap_map, Function.comp]
  | false =>
      rw [starsScan, promiseAll_star_error address chain hall]
      simp

/-- C3 counterexample: a chain with genesis, one corrupted entry (body
`["X"]` fails to decode) and one valid star owned by `addr1`.  The claim
says the call resolves with the valid star; in fact the per-entry
rejection reaches `Promise.all`, no handler is attached to it, and the
outer promise never settles. -/
theorem getStars_corrupt_entry_blocks_counterexample :
    getStarsByWalletAddress
      { chain := [newBlock Payload.genesis,
                  { newBlock (Payload.star "addr1" "s1") with body := ["X"] },
                  newBlock (Payload.star "addr1" "s1")], height := 2 } "addr1" =
      Outcome.pending ∧
    (Outcome.pending : Outcome (List Payload)) ≠
      Outcome.resolved [Payload.star "addr1" "s1"] := by
  decide

/-- C3 (amended): when every entry's payload decodes,
`getStarsByWalletAddress` resolves with exactly the decoded payloads whose
owner matches, in chain order (genesis never matches since its payload has
no owner field); but as soon as the payload decode of any single entry
fails, the call never settles — the per-entry failure is not swallowed, it
blocks the whole scan. -/
theorem getStars_decode_gate (st : ChainState) (address : String) :
    getStarsByWalletAddress st address =
      if st.chain.all (fun b => (decodePayload b.body).isSome) then
        Outcome.resolved (st.chain.filterMap (fun b =>
          (decodePayload b.body).bind (fun p =>
            if payloadOwner p == some address then some p else none)))
      else Outcome.pending :=
  starsScan_eq address st.chain

/-- `validateChain` flags index `k` when the block there fails its own
validation, or when it validates but the next block's back-reference does
not match its hash.  The second disjunct requires the block to validate:
that is the `else` branch of the loop. -/
def badAt (ch : List Block) (k : Nat) : Prop :=
  ∃ b, ch[k]? = some b ∧
    (blockValidate b = false ∨
     (blockValidate b = true ∧
      ∃ b2, ch[k + 1]? = some b2 ∧ b.hash ≠ b2.previousBlockHash))

/-- Shifting `badAt` across a cons cell. -/
lemma badAt_cons (b : Block) (rest : List Block) (k : Nat) :
    badAt (b :: rest) (k + 1) ↔ badAt rest k := by
  simp [badAt, List.getElem?_cons_succ]

/-- Membership in the head flag of the loop: the loop over `b :: rest`
reports `i` exactly when `badAt` holds at position 0, plus whatever the
loop over `rest` reports from `i + 1`. -/
lemma mem_headFlag (b : Block) (rest : List Block) (i j : Nat) :
    j ∈ validateChainFrom i (b :: rest) ↔
      ((j = i ∧ badAt (b :: rest) 0) ∨ j ∈ validateChainFrom (i + 1) rest) := by
  simp only [validateChainFrom, List.mem_append]
  cases hbv : blockValidate b with
  | false => simp [hbv, badAt]
  | true =>
      cases rest with
      | nil => simp [hbv, badAt]
      | cons b2 rest2 =>
          by_cases hm : b.hash ≠ b2.previousBlockHash
          · simp [hbv, hm, badAt, List.getElem?_cons_succ]
          · simp [hbv, hm, badAt, List.getElem?_cons_succ]

/-- The indices reported by the loop started at `i` are exactly the
offsets `i + k` with `badAt` holding at `k`. -/
lemma mem_validateChainFrom : ∀ (c : List Block) (i j : Nat),
    j ∈ validateChainFrom i c ↔ ∃ k, j = i + k ∧ badAt c k := by
  intro c
  induction c with
  | nil => intro i j; simp [validateChainFrom, badAt]
  | cons b rest ih =>
      intro i j
      rw [mem_headFlag, ih (i + 1) j]
      constructor
      · rintro (⟨rfl, h0⟩ | ⟨k, rfl, hk⟩)
        · exact ⟨0, by omega, h0⟩
        · exact ⟨k + 1, by omega, (badAt_cons b rest k).mpr hk⟩
      · rintro ⟨k, rfl, hk⟩
        cases k with
        | zero => exact Or.inl ⟨by omega, hk⟩
        | succ k2 =>
            exact Or.inr ⟨k2, by omega, (badAt_cons b rest k2).mp hk⟩

/-- Membership in the `validateChain` error list is exactly `badAt`. -/
lemma mem_validateChain (c : List Block) (j : Nat) :
    j ∈ validateChain c ↔ badAt c j := by
  rw [validateChain, mem_validateChainFrom]
  constructor
  · rintro ⟨k, hk, hb⟩
    obtain rfl : k = j := by omega
    exact hb
  · intro hb
    exact ⟨j, by omega, hb⟩

/-- The error list of the loop started at `i` never mentions an index
below `i`. -/
lemma le_of_mem_validateChainFrom {c : List Block} {i j : Nat}
    (h : j ∈ validateChainFrom i c) : i ≤ j := by
  obtain ⟨k, rfl, _⟩ := (mem_validateChainFrom c i j).mp h
  omega

/-- One loop iteration contributes either nothing or exactly its own
index in front of the rest of the loop's report. -/
lemma validateChainFrom_cons_cases (b : Block) (rest : List Block) (i : Nat) :
    validateChainFrom i (b :: rest) = validateChainFrom (i + 1) rest ∨
    validateChainFrom i (b :: rest) = i :: validateChainFrom (i + 1) rest := by
  simp only [validateChainFrom]
  cases hbv : blockValidate b with
  | false => right; simp [hbv]
  | true =>
      cases rest with
      | nil => left; simp [hbv]
      | cons b2 rest2 =>
          by_cases hm : b.hash ≠ b2.previousBlockHash
          · right; simp [hbv, hm]
          · left; simp [hbv, hm]

/-- The error list of the loop has no duplicate indices: each loop
iteration pushes at most one index, and later iterations push strictly
larger ones. -/
lemma validateChainFrom_nodup : ∀ (c : List Block) (i : Nat),
    (validateChainFrom i c).Nodup := by
  intro c
  induction c with
  | nil => intro i; simp [validateChainFrom]
  | cons b rest ih =>
      intro i
      have hnotmem : i ∉ validateChainFrom (i + 1) rest := by
        intro hmem
        have := le_of_mem_validateChainFrom hmem
        omega
      rcases validateChainFrom_cons_cases b rest i with hp | hp <;> rw [hp]
      · exact ih (i + 1)
      · exact List.nodup_cons.mpr ⟨hnotmem, ih (i + 1)⟩

/-- C9: the successor back-reference check is only performed when the
entry's own validation passes (the second disjunct of `badAt` requires
`blockValidate b = true`), and consequently each index appears at most
once in the error list, even when an entry is both internally invalid and
followed by a mismatching back-reference. -/
theorem validateChain_each_index_once (c : List Block) :
    (validateChain c).Nodup ∧ (∀ j, j ∈ validateChain c ↔ badAt c j) :=
  ⟨validateChainFrom_nodup c 0, fun j => mem_validateChain c j⟩

/-- C7: when the successor's back-reference does not match entry `i`'s
hash, `validateChain` reports index `i` — even if entry `i` itself
validates — and does not report `i + 1` for it (index `i + 1` is reported
only for its own validation failure or its own successor mismatch). -/
theorem validateChain_mismatch_reports_i (ch : List Block) (i : Nat)
    (b bnext : Block)
    (h1 : ch[i]? = some b) (h2 : ch[i + 1]? = some bnext)
    (h3 : bnext.previousBlockHash ≠ b.hash) :
    i ∈ validateChain ch ∧
    (blockValidate bnext = true →
     (∀ b2, ch[i + 2]? = some b2 → bnext.hash = b2.previousBlockHash) →
     i + 1 ∉ validateChain ch) := by
  constructor
  · refine (mem_validateChain ch i).mpr ⟨b, h1, ?_⟩
    cases hbv : blockValidate b with
    | false => exact Or.inl rfl
    | true => exact Or.inr ⟨rfl, bnext, h2, fun he => h3 he.symm⟩
  · intro hv hnext hmem
    obtain ⟨b', hb', hbad⟩ := (mem_validateChain ch (i + 1)).mp hmem
    obtain rfl : bnext = b' := by
      have := h2.symm.trans hb'
      exact Option.some.inj this
    rcases hbad with hfalse | ⟨_, b2, hb2, hne⟩
    · rw [hv] at hfalse
      exact absurd hfalse (by simp)
    · have : bnext.hash = b2.previousBlockHash := by
        have h21 : ch[i + 2]? = some b2 := by
          have : i + 1 + 1 = i + 2 := by omega
          rw [this] at hb2
          exact hb2
        exact hnext b2 h21
      exact hne this

/-- First block of the C7 witness chain: a properly sealed block. -/
def wA : Block :=
  { time := some 1, height := some 0, body := ["Genesis Block"],
    previousBlockHash := none,
    hash := some (digestOf (some 1) (some 0) none ["Genesis Block"]) }

/-- Second block of the C7 witness chain: internally valid (its stored
hash matches its recomputed digest) but with a back-reference that does
not match `wA`'s hash. -/
def wB : Block :=
  { time := some 2, height := some 1, body := ["owner", "o", "star", "s"],
    previousBlockHash := some "WRONG",
    hash := some (digestOf (some 2) (some 1) (some "WRONG") ["owner", "o", "star", "s"]) }

/-- C7 witness: on the concrete two-block chain with a broken
back-reference, index 0 is reported and index 1 is not. -/
theorem validateChain_mismatch_reports_i_witness :
    ([wA, wB][0]? = some wA) ∧ ([wA, wB][1]? = some wB) ∧
    wB.previousBlockHash ≠ wA.hash ∧
    (0 ∈ validateChain [wA, wB] ∧
     (blockValidate wB = true →
      (∀ b2, [wA, wB][0 + 2]? = some b2 → wB.hash = b2.previousBlockHash) →
      0 + 1 ∉ validateChain [wA, wB])) :=
  ⟨by decide, by decide, by decide,
   validateChain_mismatch_reports_i [wA, wB] 0 wA wB (by decide) (by decide) (by decide)⟩

/-- Round-trip of the payload codec. -/
lemma decode_encode (p : Payload) : decodePayload (encodePayload p) = some p := by
  cases p <;> simp [encodePayload, decodePayload]

/-- A block whose body encodes a star claim is not a genesis block. -/
lemma isGenesisBlock_eq_false_of_star (t h : Option Nat) (pv hs : Option String)
    (o s : String) :
    isGenesisBlock
        { time := t, height := h, body := encodePayload (Payload.star o s),
          previousBlockHash := pv, hash := hs } = false := by
  simp [isGenesisBlock, decode_encode]

/-- Pairwise well-formedness of a chain: every block validates and every
adjacent back-reference matches.  `validateChain_eq_nil_iff` shows it is
exactly "`validateChain` reports nothing". -/
def chainOk : List Block → Bool
  | [] => true
  | [b] => blockValidate b
  | b :: b2 :: rest =>
      blockValidate b && decide (b.hash = b2.previousBlockHash) && chainOk (b2 :: rest)

/-- One-step unfolding of `chainOk` on a chain of length at least two. -/
lemma chainOk_cons_cons (b b2 : Block) (rest : List Block) :
    chainOk (b :: b2 :: rest) =
      (blockValidate b && decide (b.hash = b2.previousBlockHash) && chainOk (b2 :: rest)) :=
  rfl

/-- `chainOk` on a singleton chain. -/
lemma chainOk_singleton (b : Block) : chainOk [b] = blockValidate b := rfl

/-- One-step unfolding of the loop on a chain of length at least two. -/
lemma validateChainFrom_cons_cons (i : Nat) (b b2 : Block) (rest : List Block) :
    validateChainFrom i (b :: b2 :: rest) =
      (if blockValidate b = false then [i]
       else if b.hash ≠ b2.previousBlockHash then [i] else []) ++
      validateChainFrom (i + 1) (b2 :: rest) :=
  rfl

/-- The loop reports nothing from any starting offset iff the chain is
pairwise well-formed. -/
lemma validateChainFrom_eq_nil_iff : ∀ (c : List Block) (i : Nat),
    (validateChainFrom i c = [] ↔ chainOk c = true) := by
  intro c
  induction c with
  | nil => intro i; simp [validateChainFrom, chainOk]
  | cons b rest ih =>
      intro i
      cases rest with
      | nil =>
          cases hbv : blockValidate b with
          | false => simp [validateChainFrom, chainOk, hbv]
          | true => simp [validateChainFrom, chainOk, hbv]
      | cons b2 rest2 =>
          rw [validateChainFrom_cons_cons, chainOk_cons_cons]
          by_cases hm : b.hash ≠ b2.previousBlockHash
          · cases hbv : blockValidate b with
            | false => simp [hbv, hm]
            | true => simp [hbv, hm]
          · have heq : b.hash = b2.previousBlockHash := not_not.mp hm
            cases hbv : blockValidate b with
            | false => simp [hbv, heq]
            | true => simp [hbv, heq, ih (i + 1)]

/-- `validateChain` reports nothing iff the chain is pairwise
well-formed. -/
lemma validateChain_eq_nil_iff (c : List Block) :
    validateChain c = [] ↔ chainOk c = true :=
  validateChainFrom_eq_nil_iff c 0

/-- Appending a block that validates and back-references the last block of
a well-formed chain keeps the chain well-formed. -/
lemma chainOk_append : ∀ (c : List Block) (lb b : Block),
    chainOk c = true → c.getLast? = some lb → b.previousBlockHash = lb.hash →
    blockValidate b = true → chainOk (c ++ [b]) = true := by
  intro c
  induction c with
  | nil => intro lb b _ hlast _ _; simp at hlast
  | cons x rest ih =>
      intro lb b hok hlast hprev hbv
      cases rest with
      | nil =>
          obtain rfl : x = lb := by simpa using hlast
          rw [List.cons_append, List.nil_append, chainOk_cons_cons, chainOk_singleton]
          rw [chainOk_singleton] at hok
          simp [hok, hbv, hprev.symm]
      | cons y rest2 =>
          rw [chainOk_cons_cons, Bool.and_eq_true, Bool.and_eq_true] at hok
          obtain ⟨⟨hvx, hlink⟩, hrest⟩ := hok
          have hlast2 : (y :: rest2).getLast? = some lb := by
            rw [List.getLast?_cons_cons] at hlast
            exact hlast
          have happ := ih lb b hrest hlast2 hprev hbv
          rw [List.cons_append] at happ ⊢
          rw [List.cons_append, chainOk_cons_cons, Bool.and_eq_true, Bool.and_eq_true]
          exact ⟨⟨hvx, hlink⟩, happ⟩

/-- Per-position heights of a chain: every block records its own index. -/
def heightsOk (ch : List Block) : Prop :=
  ∀ (i : Nat) (b : Block), ch[i]? = some b → b.height = some i

/-- The reachable-state invariant: well-formed chain, correct per-block
heights, engine height = chain length - 1, chain non-empty. -/
def Inv (st : ChainState) : Prop :=
  chainOk st.chain = true ∧ heightsOk st.chain ∧
  st.height = (st.chain.length : Int) - 1 ∧ st.chain ≠ []

/-- The sealed genesis block created at time `t0`. -/
def genesisSealed (t0 : Nat) : Block :=
  { time := some t0, height := some 0, body := ["Genesis Block"],
    previousBlockHash := none,
    hash := some (digestOf (some t0) (some 0) none ["Genesis Block"]) }

/-- The constructor produces exactly the singleton chain holding the
sealed genesis block. -/
lemma mkBlockchain_eq (t0 : Nat) :
    mkBlockchain t0 = { chain := [genesisSealed t0], height := 0 } :=
  rfl

/-- The freshly constructed engine (genesis only) satisfies the
invariant. -/
lemma Inv_mkBlockchain (t0 : Nat) : Inv (mkBlockchain t0) := by
  rw [mkBlockchain_eq]
  refine ⟨by simp [chainOk_singleton, blockValidate, genesisSealed], ?_, by simp, by simp⟩
  intro i b hib
  cases i with
  | zero =>
      obtain rfl := Option.some.inj hib.symm
      rfl
  | succ n => simp at hib

/-- One `submitStar`-style append preserves the invariant (and always
succeeds on an invariant state). -/
lemma Inv_appendStar (st : ChainState) (x : String × String × Nat) (h : Inv st) :
    Inv (appendStar st x) := by
  obtain ⟨hok, hh, hht, hne⟩ := h
  obtain ⟨o, sdata, t⟩ := x
  cases hlast : st.chain.getLast? with
  | none => exact absurd (List.getLast?_eq_none_iff.mp hlast) hne
  | some lb =>
      have hvc : validateChain st.chain = [] := (validateChain_eq_nil_iff st.chain).mpr hok
      rw [appendStar]
      simp only [_addBlock, newBlock, isGenesisBlock_eq_false_of_star, Bool.false_eq_true,
        if_false, hlast, sealAndValidate, hvc, List.length_nil, Nat.lt_irrefl, if_false]
      refine ⟨?_, ?_, ?_, by simp⟩
      · exact chainOk_append st.chain lb _ hok hlast rfl (by simp [blockValidate])
      · intro i b hib
        rcases lt_trichotomy i st.chain.length with hlt | heq | hgt
        · rw [List.getElem?_append_left hlt] at hib
          exact hh i b hib
        · subst heq
          rw [List.getElem?_concat_length] at hib
          obtain rfl := Option.some.inj hib.symm
          rfl
        · have hlen : st.chain.length + 1 ≤ i := by omega
          rw [List.getElem?_eq_none (by simpa using hlen)] at hib
          cases hib
      · simp only [List.length_append, List.length_cons, List.length_nil]
        push_cast
        omega

/-- The invariant holds for every chain built by initialization followed
by `submitStar`-style appends. -/
lemma Inv_buildChain (t0 : Nat) (appends : List (String × String × Nat)) :
    Inv (buildChain t0 appends) := by
  rw [buildChain]
  have hfold : ∀ (l : List (String × String × Nat)) (st : ChainState),
      Inv st → Inv (l.foldl appendStar st) := by
    intro l
    induction l with
    | nil => intro st h; exact h
    | cons x rest ih => intro st h; exact ih _ (Inv_appendStar st x h)
  exact hfold appends _ (Inv_mkBlockchain t0)

/-- C6 counterexample: `_addBlock` of a second genesis-payload block on a
freshly initialized chain succeeds (the call resolves with the block), yet
the resulting chain fails `validateChain` — `previousBlockHash` is never
set for genesis payloads, so the back-reference check at index 0 fails and
index 0 is reported.  The claim as stated quantifies over all successful
`SealAndAppend` calls and fails on this one. -/
theorem buildChain_second_genesis_counterexample :
    (_addBlock (mkBlockchain 1000) (newBlock Payload.genesis) 1001).res =
      Except.ok ((_addBlock (mkBlockchain 1000) (newBlock Payload.genesis) 1001).blockObj) ∧
    validateChain (_addBlock (mkBlockchain 1000) (newBlock Payload.genesis) 1001).st.chain = [0] ∧
    ([0] : List Nat) ≠ [] := by
  decide

/-- C6 (amended): after initialization followed by any number of
`submitStar`-style appends — star payloads, the only kind `submitStar`
constructs; such appends always succeed — every entry records its own
index as its height, the engine height equals chain length minus one, and
`validateChain` reports no index. -/
theorem buildChain_invariants (t0 : Nat) (appends : List (String × String × Nat)) :
    (∀ i : Nat, ((buildChain t0 appends).chain[i]?.all
        (fun b => b.height == some i)) = true) ∧
    (buildChain t0 appends).height = ((buildChain t0 appends).chain.length : Int) - 1 ∧
    validateChain (buildChain t0 appends).chain = [] := by
  obtain ⟨hok, hh, hht, _⟩ := Inv_buildChain t0 appends
  refine ⟨?_, hht, (validateChain_eq_nil_iff _).mpr hok⟩
  intro i
  cases hib : (buildChain t0 appends).chain[i]? with
  | none => rfl
  | some b =>
      simp [Option.all, hh i b hib]

end StarRegistry
